import Mathlib

/-!
Verification of the OLC_NAS_Tools repository (`nastools/nastools.py`).

The development shallowly embeds the identifier extractor `filer`, the
resolver (`Retrieve.search_nas`, `Retrieve.file_triage`,
`Retrieve.file_paths`), the folder check (`Retrieve.verify_folders` /
`Retrieve.main`) and the I/O step (`Retrieve.process_files`).

File names and paths are modelled as `List Char`.  The six regular
expressions in `filer` are compiled by hand into Boolean "matches at this
position" predicates; only the start position of the leftmost match is
relevant, because the code truncates at `m.start()`.  `\d` is modelled as
the ASCII digits and `re.IGNORECASE` as ASCII case folding, which is
faithful for the ASCII file names the tool handles.
-/

namespace NasTools

/-- ASCII decimal digit, the model of `\d`. -/
def isDigitChar (c : Char) : Bool := decide ('0' ≤ c) && decide (c ≤ '9')

/-- Is the head of the list a digit? -/
def dHead : List Char → Bool
  | [] => false
  | c :: _ => isDigitChar c

/-- Length of the maximal leading digit run, and the rest of the list. -/
def takeDigits : List Char → Nat × List Char
  | [] => (0, [])
  | c :: t => if isDigitChar c then ((takeDigits t).1 + 1, (takeDigits t).2) else (0, c :: t)

def isS (c : Char) : Bool := c == 'S' || c == 's'

def isL (c : Char) : Bool := c == 'L' || c == 'l'

def isR (c : Char) : Bool := c == 'R' || c == 'r'

/-- The `_L\d+` part of pattern 1, applied to what follows the `_S\d+`
digit run. -/
def pat1Tail : List Char → Bool
  | c2 :: c3 :: t2 => c2 == '_' && isL c3 && decide (0 < (takeDigits t2).1)
  | _ => false

/-- Does `_S\d+_L\d+(_R\d(_\d+)?)?` (IGNORECASE) match at the head of the
list?  The optional trailing group cannot change whether a match starts
here, so it is not inspected. -/
def pat1Head : List Char → Bool
  | c0 :: c1 :: t =>
      c0 == '_' && isS c1 && decide (0 < (takeDigits t).1) && pat1Tail (takeDigits t).2
  | _ => false

/-- Character test at index `i`. -/
def isCAt (l : List Char) (i : Nat) (c : Char) : Bool := l.get? i == some c

def isDigAt (l : List Char) (i : Nat) : Bool :=
  match l.get? i with
  | some c => isDigitChar c
  | none => false

def isRAt (l : List Char) (i : Nat) : Bool :=
  match l.get? i with
  | some c => isR c
  | none => false

/-- Does `_R\d` (IGNORECASE) match at the head of the list? -/
def pat4Head (l : List Char) : Bool := isCAt l 0 '_' && isRAt l 1 && isDigAt l 2

/-- Does `_R\d_\d{3}` (IGNORECASE) match at the head of the list? -/
def pat2Head (l : List Char) : Bool :=
  pat4Head l && isCAt l 3 '_' && isDigAt l 4 && isDigAt l 5 && isDigAt l 6

/-- Does `_R\d_001` (IGNORECASE) match at the head of the list? -/
def pat3Head (l : List Char) : Bool :=
  pat4Head l && isCAt l 3 '_' && isCAt l 4 '0' && isCAt l 5 '0' && isCAt l 6 '1'

/-- Python `$` (no MULTILINE): the position at the very end of the string,
or just before a final newline. -/
def atEnd : List Char → Bool
  | [] => true
  | [c] => c == '\n'
  | _ => false

/-- The `(_\d{3})?$` tail of pattern 5. -/
def pat5Opt (l : List Char) : Bool :=
  atEnd l ||
  (match l with
   | c0 :: c1 :: c2 :: c3 :: r =>
       c0 == '_' && isDigitChar c1 && isDigitChar c2 && isDigitChar c3 && atEnd r
   | _ => false)

/-- Does `[-_]\d{1,3}(_\d{3})?$` (IGNORECASE) match at the head of the
list?  The `\d{1,3}` alternatives are tried as a disjunction. -/
def pat5Head : List Char → Bool
  | c0 :: c1 :: t1 =>
      (c0 == '-' || c0 == '_') && isDigitChar c1 &&
      (pat5Opt t1 ||
       (match t1 with
        | c2 :: t2 =>
            isDigitChar c2 &&
            (pat5Opt t2 ||
             (match t2 with
              | c3 :: t3 => isDigitChar c3 && pat5Opt t3
              | [] => false))
        | [] => false))
  | _ => false

/-- Case-insensitive literal match of `pat` at the head of `l`; returns the
rest of `l` on success.  Models `re.escape(extension)` under IGNORECASE. -/
def matchCI : List Char → List Char → Option (List Char)
  | [], l => some l
  | _ :: _, [] => none
  | p :: ps, c :: cs => if p.toLower == c.toLower then matchCI ps cs else none

def gzT : List Char := ['.', 'g', 'z']

/-- Does `(?:\.<ext>(?:\.gz)?)$` (IGNORECASE) match at the head of the
list? -/
def pat6Head (ext : List Char) : List Char → Bool
  | c0 :: rest =>
      c0 == '.' &&
      (match matchCI ext rest with
       | some r2 =>
           atEnd r2 ||
           (match matchCI gzT r2 with
            | some r3 => atEnd r3
            | none => false)
       | none => false)
  | [] => false

/-- Position of the leftmost match of predicate `q`, i.e. the model of
`pat.search(s).start()`. -/
def firstMatch (q : List Char → Bool) : List Char → Option Nat
  | [] => if q [] then some 0 else none
  | c :: t => if q (c :: t) then some 0 else (firstMatch q t).map (fun i => i + 1)

/-- The `for pat in strip_patterns: m = pat.search(file_name); if m: ...
break` loop of `filer`: the start of the first match of the first pattern
that matches anywhere. -/
def strip_search (ext : List Char) (l : List Char) : Option Nat :=
  match firstMatch pat1Head l with
  | some i => some i
  | none =>
  match firstMatch pat2Head l with
  | some i => some i
  | none =>
  match firstMatch pat3Head l with
  | some i => some i
  | none =>
  match firstMatch pat4Head l with
  | some i => some i
  | none =>
  match firstMatch pat5Head l with
  | some i => some i
  | none =>
  match firstMatch (pat6Head ext) l with
  | some i => some i
  | none => none

/-- `file_name = file_name[:m.start()]` for the first matching pattern, or
the unchanged name when no pattern matches. -/
def stripName (ext : List Char) (l : List Char) : List Char :=
  match strip_search ext l with
  | some i => l.take i
  | none => l

def isSep (c : Char) : Bool := c == '_' || c == '-'

/-- `file_name.rstrip('_-')`. -/
def rstripSep (l : List Char) : List Char := (l.reverse.dropWhile isSep).reverse

/-- `os.path.basename` for POSIX paths: the part after the last slash. -/
def basenameChars (p : List Char) : List Char :=
  (p.reverse.takeWhile (fun c => c != '/')).reverse

/-- `os.path.dirname` for POSIX paths: everything up to the last slash,
with trailing slashes stripped unless the result is all slashes. -/
def dirnameChars (p : List Char) : List Char :=
  let tailLen := (p.reverse.takeWhile (fun c => c != '/')).length
  let head := p.take (p.length - tailLen)
  if head ≠ [] ∧ head.any (fun c => c != '/') then
    (head.reverse.dropWhile (fun c => c == '/')).reverse
  else head

/-- The name `filer` derives for a single file: base name, truncation at
the first matching strip pattern, final `rstrip('_-')`. -/
def filerName (ext : List Char) (seqfile : List Char) : List Char :=
  rstripSep (stripName ext (basenameChars seqfile))

/-- The set built by `filer` (`fileset`), modelled as an
insertion-ordered duplicate-free list. -/
def filer_set (ext : List Char) (filelist : List (List Char)) : List (List Char) :=
  filelist.foldl
    (fun acc f =>
      let n := filerName ext f
      if n ∈ acc then acc else acc ++ [n])
    []

/-- `search_nas`: `os.path.basename(list(filer(filelist=[path],
extension=self.filetype))[0])`.  The singleton-set head is taken with a
default, whose unreachability is the content of claim C10. -/
def derived_id (ft : List Char) (path : List Char) : List Char :=
  basenameChars ((filer_set ft [path]).headD [])

def fastqT : List Char := ['f', 'a', 's', 't', 'q']

def fastaT : List Char := ['f', 'a', 's', 't', 'a']

/-- `self.lengths = 2 if self.filetype == 'fastq' else 1`. -/
def lengths (ft : List Char) : Nat := if ft = fastqT then 2 else 1

/-- Python `sorted` on a list of strings: lexicographic by code point. -/
def sortStrings (l : List (List Char)) : List (List Char) :=
  List.insertionSort (fun a b => a ≤ b) l

/-- The paths handed to `process_files` by `file_paths`: `sorted(paths)[0]`
always, and `sorted(paths)[1]` when the file type is fastq and more than
one path was found.  (`file_paths` is only called with a non-empty list;
the empty case is a dead default.) -/
def file_paths_processed (ft : List Char) (paths : List (List Char)) : List (List Char) :=
  match sortStrings paths with
  | [] => []
  | p0 :: rest => p0 :: (if ft = fastqT ∧ 1 < paths.length then rest.take 1 else [])

/-- The duplicate-copies warning of `file_paths`: emitted when more paths
than `self.lengths` were found, and carrying
`set(os.path.dirname(path) for path in paths)`. -/
def file_paths_warning (ft : List Char) (paths : List (List Char)) : Option (List (List Char)) :=
  if lengths ft < paths.length then some ((paths.map dirnameChars).dedup) else none

/-- `self.new_file_dict` as built by `search_nas` from the enumeration
order of `iglob`: each discovered path is appended to the entry of its
derived SEQ ID (the entry is created empty on first use).  A SEQ ID is a
key of the dictionary exactly when its list is non-empty. -/
def new_file_dict (ft : List Char) (enum : List (List Char)) : List Char → List (List Char) :=
  enum.foldl
    (fun d p => fun sid => if sid = derived_id ft p then d sid ++ [p] else d sid)
    (fun _ => [])

/-- The `for seqid in sorted(self.seqids)` loop body of `file_triage`,
processing an already-sorted list of SEQ IDs against the dictionary:
found entries (SEQ ID with the paths handed to `process_files`) and the
`missing` list, both in loop order. -/
def file_triage_go (ft : List Char) (d : List Char → List (List Char)) :
    List (List Char) → List ((List Char) × List (List Char)) × List (List Char)
  | [] => ([], [])
  | sid :: rest =>
      if d sid = [] then
        ((file_triage_go ft d rest).1, sid :: (file_triage_go ft d rest).2)
      else
        ((sid, file_paths_processed ft (d sid)) :: (file_triage_go ft d rest).1,
         (file_triage_go ft d rest).2)

/-- `file_triage`: iterate over `sorted(self.seqids)`, dispatching each SEQ
ID to `file_paths` (found) or to `self.missing`. -/
def file_triage (ft : List Char) (seqids : List (List Char)) (enum : List (List Char)) :
    List ((List Char) × List (List Char)) × List (List Char) :=
  file_triage_go ft (new_file_dict ft enum) (sortStrings seqids)

/-- `verify_folders`: every configured folder must be a directory. -/
def verify_folders (isdir : List Char → Bool) (folders : List (List Char)) : Bool :=
  folders.all isdir

/-- `Retrieve.main`: `verify_folders` runs first and raises `SystemExit`
on a missing folder, before `locate_files`/`file_triage` run; the error
payload is the state at exit (candidate entries, missing list), both still
at their `__init__` values.  On success the triage result is returned;
triage itself is total. -/
def retrieve_main (ft : List Char) (seqids : List (List Char))
    (folders : List (List Char)) (isdir : List Char → Bool) (enum : List (List Char)) :
    Except (List ((List Char) × List (List Char)) × List (List Char))
      (List ((List Char) × List (List Char)) × List (List Char)) :=
  if verify_folders isdir folders then Except.ok (file_triage ft seqids enum)
  else Except.error ([], [])

/-- An entry of the output directory.  `copied` records a file written by
`shutil.copyfile`, `linked` a relative symlink created by
`relative_symlink` (recording source file and output directory; the
relative-path arithmetic itself is irrelevant to the claims), `plain` a
pre-existing regular file. -/
inductive DirEntry where
  | copied : List Char → DirEntry
  | linked : List Char → List Char → DirEntry
  | plain : DirEntry
deriving DecidableEq

/-- `process_files`: skip (with a warning, the `Bool` result) when a file
of the same base name already exists in the output directory, otherwise
copy or relatively symlink the source there. -/
def process_files (copyflag : Bool) (outdir : List Char)
    (out : List Char → Option DirEntry) (path : List Char) :
    (List Char → Option DirEntry) × Bool :=
  let filename := basenameChars path
  if (out filename).isSome then (out, true)
  else
    (fun n =>
      if n = filename then
        some (if copyflag then DirEntry.copied path else DirEntry.linked path outdir)
      else out n,
     false)

/-- Does the name end in one of the separators stripped by
`rstrip('_-')`? -/
def endsInSep (l : List Char) : Bool :=
  match l.getLast? with
  | some c => isSep c
  | none => false

/-! Concrete inputs used by counterexamples and witnesses. -/

/-- `2015-SEQ-001_1.fastq.gz`, the fourth example of `filer`'s own
docstring. -/
def exC2 : List Char :=
  ['2', '0', '1', '5', '-', 'S', 'E', 'Q', '-', '0', '0', '1', '_', '1',
   '.', 'f', 'a', 's', 't', 'q', '.', 'g', 'z']

/-- `2015-SEQ-001_1`. -/
def exC2res : List Char :=
  ['2', '0', '1', '5', '-', 'S', 'E', 'Q', '-', '0', '0', '1', '_', '1']

/-- `2015-SEQ-001`, the identifier the docstring promises. -/
def exC2doc : List Char :=
  ['2', '0', '1', '5', '-', 'S', 'E', 'Q', '-', '0', '0', '1']

/-- `A_S1_L1`: an identifier that itself contains the lane pattern. -/
def exC1id : List Char := ['A', '_', 'S', '1', '_', 'L', '1']

/-- `A_S1_L1_S2_L001_R1_001.fastq`: a file name following the Illumina
convention with identifier `A_S1_L1`. -/
def exC1 : List Char :=
  ['A', '_', 'S', '1', '_', 'L', '1', '_', 'S', '2', '_', 'L', '0', '0', '1',
   '_', 'R', '1', '_', '0', '0', '1', '.', 'f', 'a', 's', 't', 'q']

/-- `x_R3`: an identifier that itself contains the read pattern. -/
def exC3id : List Char := ['x', '_', 'R', '3']

/-- `x_R3_R1.fastq`: a file name of the form `<id>_R1.<ext>` with
identifier `x_R3`. -/
def exC3 : List Char :=
  ['x', '_', 'R', '3', '_', 'R', '1', '.', 'f', 'a', 's', 't', 'q']

/-- `2015-SEQ-001`, a clean identifier for witnesses. -/
def exId : List Char :=
  ['2', '0', '1', '5', '-', 'S', 'E', 'Q', '-', '0', '0', '1']

/-- `/a/x.fq`. -/
def exPath : List Char := ['/', 'a', '/', 'x', '.', 'f', 'q']

/-- An output directory that already holds a file named `x.fq`. -/
def exOut : List Char → Option DirEntry :=
  fun n => if n = ['x', '.', 'f', 'q'] then some DirEntry.plain else none

/-- An empty output directory. -/
def exOutEmpty : List Char → Option DirEntry := fun _ => none

/-- `/o`. -/
def exOutdir : List Char := ['/', 'o']

/-- `/mnt`. -/
def exFolders : List (List Char) := [['/', 'm', 'n', 't']]

def exIsdirF : List Char → Bool := fun _ => false

def exIsdirT : List Char → Bool := fun _ => true

/-- `/a/x_R1.fastq.gz`, `/b/x_R1.fastq.gz`, `/a/x_R2.fastq.gz`: three
candidates for identifier `x`. -/
def exPaths : List (List Char) :=
  [['/', 'a', '/', 'x', '_', 'R', '1', '.', 'f', 'a', 's', 't', 'q', '.', 'g', 'z'],
   ['/', 'b', '/', 'x', '_', 'R', '1', '.', 'f', 'a', 's', 't', 'q', '.', 'g', 'z'],
   ['/', 'a', '/', 'x', '_', 'R', '2', '.', 'f', 'a', 's', 't', 'q', '.', 'g', 'z']]

/-! ### Generic lemmas about the embedded primitives -/

lemma head?_dropWhile_false {p : Char → Bool} {l : List Char} {a : Char}
    (h : (l.dropWhile p).head? = some a) : p a = false := by
  induction l with
  | nil => simp [List.dropWhile] at h
  | cons c t ih =>
      by_cases hc : p c
      · rw [List.dropWhile_cons, if_pos hc] at h
        exact ih h
      · rw [List.dropWhile_cons, if_neg hc] at h
        simp only [List.head?_cons, Option.some.injEq] at h
        subst h
        exact Bool.eq_false_iff.mpr hc

lemma rstripSep_prefix_self (l : List Char) : rstripSep l <+: l := by
  have h1 : l.reverse.dropWhile isSep <:+ l.reverse := List.dropWhile_suffix _
  have h2 := List.reverse_prefix.mpr h1
  rwa [List.reverse_reverse] at h2

lemma endsInSep_rstripSep (l : List Char) : endsInSep (rstripSep l) = false := by
  rw [endsInSep, rstripSep, List.getLast?_reverse]
  cases hd : (l.reverse.dropWhile isSep) with
  | nil => rfl
  | cons c t =>
      have hc : isSep c = false := head?_dropWhile_false (by rw [hd]; rfl)
      simp [hc]

lemma stripName_take (ext l : List Char) : ∃ k, stripName ext l = l.take k := by
  rw [stripName]
  cases strip_search ext l with
  | some i => exact ⟨i, rfl⟩
  | none => exact ⟨l.length, ( List.take_length l).symm⟩

lemma sortStrings_perm (l : List (List Char)) : (sortStrings l).Perm l :=
  List.perm_insertionSort _ l

lemma sortStrings_length (l : List (List Char)) : (sortStrings l).length = l.length :=
  (sortStrings_perm l).length_eq

lemma sortStrings_nil_iff (l : List (List Char)) : sortStrings l = [] ↔ l = [] := by
  constructor
  · intro h
    have := sortStrings_length l
    rw [h] at this
    exact List.length_eq_zero.mp this.symm
  · intro h
    subst h
    rfl

/-! ### Claim theorems (first group) -/

/-- Claim C2 (code bug): on the docstring's own example
`2015-SEQ-001_1.fastq.gz`, `filer` returns `2015-SEQ-001_1`, not the
promised `2015-SEQ-001`: the numeric-suffix pattern
`[-_]\d{1,3}(_\d{3})?$` is anchored at the end of the string but is tried
before the extension has been stripped, so it cannot match a name that
still carries `.fastq.gz`. -/
theorem numeric_suffix_code_bug :
    exC2 = exC2doc ++ ['_', '1', '.'] ++ fastqT ++ gzT
    ∧ filerName fastqT exC2 = exC2res
    ∧ exC2res ≠ exC2doc := by
  refine ⟨by decide, by decide, by decide⟩

/-- Claim C9: the identifier `filer` derives from any input is the final
`rstrip('_-')` of a prefix of the base name; hence it is itself a prefix
of the base name, never longer than it, and never ends in `_` or `-`,
whether or not any stripping rule matched. -/
theorem filer_prefix_invariant (ext s : List Char) :
    (∃ k, filerName ext s = rstripSep ((basenameChars s).take k))
    ∧ filerName ext s <+: basenameChars s
    ∧ (filerName ext s).length ≤ (basenameChars s).length
    ∧ endsInSep (filerName ext s) = false := by
  obtain ⟨k, hk⟩ := stripName_take ext (basenameChars s)
  have h1 : filerName ext s = rstripSep ((basenameChars s).take k) := by
    rw [filerName, hk]
  have h2 : filerName ext s <+: basenameChars s := by
    rw [h1]
    exact (rstripSep_prefix_self _).trans ( List.take_prefix _ _)
  exact ⟨⟨k, h1⟩, h2, h2.length_le, by rw [filerName]; exact endsInSep_rstripSep _⟩

lemma filer_set_go_ne_nil (ext : List Char) (fl : List (List Char))
    (acc : List (List Char)) (h : acc ≠ []) :
    fl.foldl
      (fun acc f =>
        let n := filerName ext f
        if n ∈ acc then acc else acc ++ [n])
      acc ≠ [] := by
  induction fl generalizing acc with
  | nil => exact h
  | cons f t ih =>
      rw [List.foldl_cons]
      apply ih
      by_cases hm : filerName ext f ∈ acc
      · simpa [hm]
      · simp [hm]

/-- Claim C10: `filer` never returns an empty set on a non-empty file
list — it records one derived name per input file — and on the singleton
lists used by `search_nas` the set is exactly the one derived name, so
`list(filer(filelist=[path], extension=...))[0]` is always in range. -/
theorem filer_set_nonempty (ext : List Char) (fl : List (List Char)) (p : List Char)
    (h : fl ≠ []) :
    filer_set ext fl ≠ [] ∧ filer_set ext [p] = [filerName ext p] := by
  constructor
  · cases fl with
    | nil => exact absurd rfl h
    | cons f t =>
        rw [filer_set, List.foldl_cons]
        apply filer_set_go_ne_nil
        simp
  · simp [filer_set]

/-- Witness for C10 at a concrete path. -/
theorem filer_set_nonempty_witness :
    ([exPath] : List (List Char)) ≠ []
    ∧ filer_set fastqT [exPath] ≠ []
    ∧ filer_set fastqT [exPath] = [filerName fastqT exPath] := by
  refine ⟨by decide, ?_, ?_⟩
  · exact (filer_set_nonempty fastqT [exPath] exPath (by decide)).1
  · exact (filer_set_nonempty fastqT [exPath] exPath (by decide)).2

/-- Claim C8: `process_files` never touches an existing destination file:
when the output directory already holds a file with the source's base
name it returns the directory unchanged and reports the skip, in copy
mode and in symlink mode alike; only when no such file exists does it
create the copy (copy mode) or the relative symlink (link mode), and even
then every other directory entry is left untouched. -/
theorem process_files_skip (copyflag : Bool) (outdir : List Char)
    (out : List Char → Option DirEntry) (path : List Char) :
    ((out (basenameChars path)).isSome = true →
      process_files copyflag outdir out path = (out, true))
    ∧ ((out (basenameChars path)) = none →
      (process_files copyflag outdir out path).2 = false
      ∧ (process_files copyflag outdir out path).1 (basenameChars path)
          = some (if copyflag then DirEntry.copied path else DirEntry.linked path outdir)
      ∧ ∀ n, n ≠ basenameChars path →
          (process_files copyflag outdir out path).1 n = out n) := by
  constructor
  · intro h
    simp [process_files, h]
  · intro h
    refine ⟨by simp [process_files, h], by simp [process_files, h], ?_⟩
    intro n hn
    simp [process_files, h, hn]

/-- Witness for C8 at a concrete directory state. -/
theorem process_files_skip_witness :
    (exOut (basenameChars exPath)).isSome = true
    ∧ process_files true exOutdir exOut exPath = (exOut, true) :=
  ⟨rfl, (process_files_skip true exOutdir exOut exPath).1 rfl⟩

/-- Claim C7: `verify_folders` gates the whole run: when some configured
folder is not a directory, `main` exits with the candidate dictionary and
the missing list still empty, before any enumeration or triage; when the
folders check out, the run always completes with the triage result —
ambiguous or unresolved identifiers never raise. -/
theorem verify_folders_gate (ft : List Char) (seqids : List (List Char))
    (folders : List (List Char)) (isdir : List Char → Bool) (enum : List (List Char)) :
    (verify_folders isdir folders = false →
      retrieve_main ft seqids folders isdir enum = Except.error ([], []))
    ∧ (verify_folders isdir folders = true →
      retrieve_main ft seqids folders isdir enum = Except.ok (file_triage ft seqids enum))
    ∧ (verify_folders isdir folders = false ↔ ∃ f ∈ folders, isdir f = false) := by
  refine ⟨fun h => by simp [retrieve_main, h], fun h => by simp [retrieve_main, h], ?_⟩
  rw [verify_folders, Bool.eq_false_iff]
  simp only [ne_eq, List.all_eq_true, Bool.not_eq_true]
  push_neg
  simp [Bool.not_eq_true]

/-- Witness for C7: both the failing and the passing branch at concrete
inputs. -/
theorem verify_folders_gate_witness :
    verify_folders exIsdirF exFolders = false
    ∧ retrieve_main fastqT [] exFolders exIsdirF [] = Except.error ([], [])
    ∧ retrieve_main fastqT [] exFolders exIsdirT [] = Except.ok (file_triage fastqT [] []) :=
  ⟨rfl, (verify_folders_gate fastqT [] exFolders exIsdirF []).1 rfl,
   (verify_folders_gate fastqT [] exFolders exIsdirT []).2.1 rfl⟩

/-- Claim C4: for a non-empty candidate list, `file_paths` hands to
`process_files` exactly the first `N` paths in lexicographic order, where
`N = self.lengths` (2 for fastq, 1 otherwise) and fewer only when fewer
exist; it warns exactly when more than `N` candidates exist, the warning
carries all distinct containing directories, and the selection happens
regardless of the warning. -/
theorem file_paths_selection (ft : List Char) (paths : List (List Char))
    (h : paths ≠ []) :
    file_paths_processed ft paths = (sortStrings paths).take (lengths ft)
    ∧ (lengths ft < paths.length →
        file_paths_warning ft paths = some ((paths.map dirnameChars).dedup))
    ∧ (paths.length ≤ lengths ft → file_paths_warning ft paths = none)
    ∧ (∀ w, file_paths_warning ft paths = some w →
        ∀ d, d ∈ w ↔ ∃ p ∈ paths, dirnameChars p = d) := by
  refine ⟨?_, ?_, ?_, ?_⟩
  · have hs : sortStrings paths ≠ [] := fun h0 => h ((sortStrings_nil_iff paths).mp h0)
    rw [file_paths_processed]
    cases hq : sortStrings paths with
    | nil => exact absurd hq hs
    | cons p0 rest =>
        by_cases hft : ft = fastqT
        · rw [lengths, if_pos hft]
          by_cases hlen : 1 < paths.length
          · simp [hft, hlen, List.take_succ_cons]
          · have hlen1 : paths.length = 1 := by
              have : 0 < paths.length := List.length_pos.mpr h
              omega
            have : rest = [] := by
              have := sortStrings_length paths
              rw [hq, hlen1] at this
              simpa using this
            simp [hft, hlen, this]
        · rw [lengths, if_neg hft]
          simp [hft]
  · intro hlt
    rw [file_paths_warning, if_pos hlt]
  · intro hle
    rw [file_paths_warning, if_neg (by omega)]
  · intro w hw d
    rw [file_paths_warning] at hw
    by_cases hlt : lengths ft < paths.length
    · rw [if_pos hlt] at hw
      cases hw
      simp [List.mem_dedup, List.mem_map]
    · rw [if_neg hlt] at hw
      exact absurd hw (by simp)

/-- Witness for C4 at three concrete fastq candidates. -/
theorem file_paths_selection_witness :
    exPaths ≠ []
    ∧ file_paths_processed fastqT exPaths = (sortStrings exPaths).take (lengths fastqT)
    ∧ file_paths_warning fastqT exPaths = some ((exPaths.map dirnameChars).dedup) :=
  ⟨by decide, (file_paths_selection fastqT exPaths (by decide)).1,
   (file_paths_selection fastqT exPaths (by decide)).2.1 (by decide)⟩

/-! ### The resolver as a function of the discovered-file multiset -/

lemma new_file_dict_eq_filter (ft : List Char) (enum : List (List Char)) (sid : List Char) :
    new_file_dict ft enum sid = enum.filter (fun p => decide (derived_id ft p = sid)) := by
  suffices h : ∀ d0 : List Char → List (List Char),
      (enum.foldl
        (fun d p => fun sid => if sid = derived_id ft p then d sid ++ [p] else d sid)
        d0) sid
        = d0 sid ++ enum.filter (fun p => decide (derived_id ft p = sid)) by
    simpa [new_file_dict] using h (fun _ => [])
  induction enum with
  | nil => intro d0; simp
  | cons p t ih =>
      intro d0
      rw [List.foldl_cons, ih]
      by_cases hp : derived_id ft p = sid
      · simp [hp, List.filter_cons]
      · have hp' : ¬ sid = derived_id ft p := fun e => hp e.symm
        simp [hp, hp', List.filter_cons]

lemma triage_go_missing (ft : List Char) (d : List Char → List (List Char))
    (l : List (List Char)) (sid : List Char) :
    sid ∈ (file_triage_go ft d l).2 ↔ sid ∈ l ∧ d sid = [] := by
  induction l with
  | nil => simp [file_triage_go]
  | cons a t ih =>
      by_cases ha : d a = []
      · simp only [file_triage_go, if_pos ha, List.mem_cons, ih]
        constructor
        · rintro (rfl | ⟨h1, h2⟩)
          exacts [⟨Or.inl rfl, ha⟩, ⟨Or.inr h1, h2⟩]
        · rintro ⟨rfl | h1, h2⟩
          exacts [Or.inl rfl, Or.inr ⟨h1, h2⟩]
      · simp only [file_triage_go, if_neg ha, List.mem_cons, ih]
        constructor
        · rintro ⟨h1, h2⟩
          exact ⟨Or.inr h1, h2⟩
        · rintro ⟨rfl | h1, h2⟩
          exacts [absurd h2 ha, ⟨h1, h2⟩]

lemma triage_go_found (ft : List Char) (d : List Char → List (List Char))
    (l : List (List Char)) (sid : List Char) (l0 : List (List Char)) :
    (sid, l0) ∈ (file_triage_go ft d l).1 ↔
      sid ∈ l ∧ d sid ≠ [] ∧ l0 = file_paths_processed ft (d sid) := by
  induction l with
  | nil => simp [file_triage_go]
  | cons a t ih =>
      by_cases ha : d a = []
      · simp only [file_triage_go, if_pos ha, List.mem_cons, ih]
        constructor
        · rintro ⟨h1, h2, h3⟩
          exact ⟨Or.inr h1, h2, h3⟩
        · rintro ⟨rfl | h1, h2, h3⟩
          exacts [absurd ha h2, ⟨h1, h2, h3⟩]
      · simp only [file_triage_go, if_neg ha, List.mem_cons, Prod.mk.injEq, ih]
        constructor
        · rintro (⟨rfl, rfl⟩ | ⟨h1, h2, h3⟩)
          exacts [⟨Or.inl rfl, ha, rfl⟩, ⟨Or.inr h1, h2, h3⟩]
        · rintro ⟨rfl | h1, h2, h3⟩
          exacts [Or.inl ⟨rfl, h3⟩, Or.inr ⟨h1, h2, h3⟩]

lemma file_paths_processed_ne_nil (ft : List Char) (paths : List (List Char))
    (h : paths ≠ []) : file_paths_processed ft paths ≠ [] := by
  rw [file_paths_processed]
  cases hq : sortStrings paths with
  | nil => exact absurd ((sortStrings_nil_iff paths).mp hq) h
  | cons p0 rest => simp

/-- Claim C6: after triage every requested SEQ ID lands in exactly one of
the two outputs — a found entry with a non-empty selected-path list, or
the missing list — and it is missing precisely when no discovered file's
derived identifier equals it (exact, case-sensitive list equality);
triage loops over all sorted SEQ IDs, so a missing one never aborts the
rest. -/
theorem triage_partition (ft : List Char) (seqids : List (List Char))
    (enum : List (List Char)) (sid : List Char) (h : sid ∈ seqids) :
    (sid ∈ (file_triage ft seqids enum).2 ↔ ∀ p ∈ enum, derived_id ft p ≠ sid)
    ∧ ((∃ l0, (sid, l0) ∈ (file_triage ft seqids enum).1 ∧ l0 ≠ []) ↔
        sid ∉ (file_triage ft seqids enum).2) := by
  have hmem : sid ∈ sortStrings seqids := (sortStrings_perm seqids).mem_iff.mpr h
  have hempty : new_file_dict ft enum sid = [] ↔ ∀ p ∈ enum, derived_id ft p ≠ sid := by
    rw [new_file_dict_eq_filter, List.filter_eq_nil_iff]
    simp
  have hmiss : sid ∈ (file_triage ft seqids enum).2 ↔ new_file_dict ft enum sid = [] := by
    rw [file_triage, triage_go_missing]
    simp [hmem]
  have hfound : (∃ l0, (sid, l0) ∈ (file_triage ft seqids enum).1 ∧ l0 ≠ []) ↔
      new_file_dict ft enum sid ≠ [] := by
    rw [file_triage]
    constructor
    · rintro ⟨l0, hf, _⟩
      exact ((triage_go_found ft _ _ sid l0).mp hf).2.1
    · intro hne
      exact ⟨file_paths_processed ft (new_file_dict ft enum sid),
        (triage_go_found ft _ _ sid _).mpr ⟨hmem, hne, rfl⟩,
        file_paths_processed_ne_nil ft _ hne⟩
  constructor
  · rw [hmiss]
    exact hempty
  · rw [hfound]
    constructor
    · intro hne hmem2
      exact hne (hmiss.mp hmem2)
    · intro hnm he
      exact hnm (hmiss.mpr he)

/-- Witness for C6: identifier `x` against the three concrete candidate
paths. -/
theorem triage_partition_witness :
    (['x'] ∈ ([['x']] : List (List Char)))
    ∧ ((['x'] ∈ (file_triage fastqT [['x']] exPaths).2 ↔
          ∀ p ∈ exPaths, derived_id fastqT p ≠ ['x'])
       ∧ ((∃ l0, (['x'], l0) ∈ (file_triage fastqT [['x']] exPaths).1 ∧ l0 ≠ []) ↔
          ['x'] ∉ (file_triage fastqT [['x']] exPaths).2)) :=
  ⟨by decide, triage_partition fastqT [['x']] exPaths ['x'] (by decide)⟩

lemma file_paths_processed_perm (ft : List Char) {p1 p2 : List (List Char)}
    (h : p1.Perm p2) : file_paths_processed ft p1 = file_paths_processed ft p2 := by
  have hs : sortStrings p1 = sortStrings p2 :=
    List.eq_of_perm_of_sorted
      ((sortStrings_perm p1).trans (h.trans (sortStrings_perm p2).symm))
      (List.sorted_insertionSort _ p1) (List.sorted_insertionSort _ p2)
  rw [file_paths_processed, file_paths_processed, hs, h.length_eq]

lemma triage_go_congr (ft : List Char) (d1 d2 : List Char → List (List Char))
    (l : List (List Char))
    (h1 : ∀ sid, d1 sid = [] ↔ d2 sid = [])
    (h2 : ∀ sid, file_paths_processed ft (d1 sid) = file_paths_processed ft (d2 sid)) :
    file_triage_go ft d1 l = file_triage_go ft d2 l := by
  induction l with
  | nil => rfl
  | cons a t ih =>
      rw [file_triage_go, file_triage_go, ih]
      by_cases ha : d1 a = []
      · rw [if_pos ha, if_pos ((h1 a).mp ha)]
      · rw [if_neg ha, if_neg (fun e => ha ((h1 a).mpr e)), h2 a]

/-- Claim C5: the resolver is a function of the multiset of discovered
files: permuting the enumeration order of the scan changes neither the
found entries (each is the lexicographically smallest `N` of its
candidates) nor the missing list, so two runs over the same unchanged
collection agree; idempotence is the permutation-reflexive instance. -/
theorem resolver_deterministic (ft : List Char) (seqids : List (List Char))
    (e1 e2 : List (List Char)) (h : e1.Perm e2) :
    file_triage ft seqids e1 = file_triage ft seqids e2 := by
  rw [file_triage, file_triage]
  apply triage_go_congr
  · intro sid
    rw [new_file_dict_eq_filter, new_file_dict_eq_filter]
    have hlen := (h.filter (fun p => decide (derived_id ft p = sid))).length_eq
    constructor <;> intro he
    · rw [← List.length_eq_zero]
      rw [he] at hlen
      simpa using hlen.symm
    · rw [← List.length_eq_zero]
      rw [he] at hlen
      simpa using hlen
  · intro sid
    rw [new_file_dict_eq_filter, new_file_dict_eq_filter]
    exact file_paths_processed_perm ft (h.filter _)

/-- Witness for C5: the first two concrete candidate paths in both
enumeration orders. -/
theorem resolver_deterministic_witness :
    (([['a'], ['b']] : List (List Char)).Perm [['b'], ['a']])
    ∧ file_triage fastqT [exId] [['a'], ['b']] = file_triage fastqT [exId] [['b'], ['a']] :=
  ⟨List.Perm.swap ['b'] ['a'] [],
   resolver_deterministic fastqT [exId] [['a'], ['b']] [['b'], ['a']]
     (List.Perm.swap ['b'] ['a'] [])⟩

/-! ### Leftmost-match lemmas for the strip patterns -/

lemma dHead_cons_nondigit (c : Char) (l : List Char) (h : isDigitChar c = false) :
    dHead (c :: l) = false := h

lemma takeDigits_append (u v : List Char) (hv : dHead v = false) :
    takeDigits (u ++ v) = ((takeDigits u).1, (takeDigits u).2 ++ v) := by
  induction u with
  | nil =>
      simp only [List.nil_append]
      cases v with
      | nil => rfl
      | cons c t =>
          have hc : isDigitChar c = false := hv
          simp [takeDigits, hc]
  | cons c t ih =>
      by_cases hc : isDigitChar c = true
      · simp [takeDigits, hc, ih]
      · simp [takeDigits, hc]

lemma takeDigits_append_fst (u v : List Char) (hv : dHead v = false) :
    (takeDigits (u ++ v)).1 = (takeDigits u).1 := by
  rw [takeDigits_append u v hv]

lemma takeDigits_append_snd (u v : List Char) (hv : dHead v = false) :
    (takeDigits (u ++ v)).2 = (takeDigits u).2 ++ v := by
  rw [takeDigits_append u v hv]

lemma takeDigits_all (l : List Char) (h : ∀ c ∈ l, isDigitChar c = true) :
    takeDigits l = (l.length, []) := by
  induction l with
  | nil => rfl
  | cons c t ih =>
      rw [takeDigits, if_pos (h c (List.mem_cons_self c t)),
        ih (fun x hx => h x (List.mem_cons_of_mem c hx))]
      rfl

lemma firstMatch_cons_none (q : List Char → Bool) (c : Char) (t : List Char) :
    firstMatch q (c :: t) = none ↔ q (c :: t) = false ∧ firstMatch q t = none := by
  by_cases hq : q (c :: t) = true
  · simp [firstMatch, hq]
  · simp [firstMatch, hq, Option.map_eq_none', Bool.eq_false_iff]

lemma firstMatch_none_iff (q : List Char → Bool) (l : List Char) :
    firstMatch q l = none ↔ ∀ i, q (l.drop i) = false := by
  induction l with
  | nil =>
      simp only [firstMatch, List.drop_nil]
      by_cases hq : q [] = true
      · simp [hq]
      · have h0 : q [] = false := Bool.eq_false_iff.mpr hq
        simp [h0]
  | cons c t ih =>
      rw [firstMatch_cons_none, ih]
      constructor
      · rintro ⟨h0, hrest⟩ i
        cases i with
        | zero => exact h0
        | succ j => exact hrest j
      · intro hall
        exact ⟨hall 0, fun j => hall (j + 1)⟩

lemma firstMatch_append_eq (q : List Char → Bool) (u v : List Char)
    (h1 : ∀ i, i < u.length → q ((u ++ v).drop i) = false) (h2 : q v = true) :
    firstMatch q (u ++ v) = some u.length := by
  induction u with
  | nil =>
      cases v with
      | nil => simp [firstMatch, h2]
      | cons c t => simp [firstMatch, h2]
  | cons c t ih =>
      have h0 : q (c :: (t ++ v)) = false := h1 0 (by simp)
      rw [List.cons_append, firstMatch, if_neg (by simp [h0]),
        ih (fun i hi => h1 (i + 1) (by simp; omega))]
      rfl

lemma firstMatch_append_none (q : List Char → Bool) (u v : List Char)
    (h1 : ∀ i, i < u.length → q ((u ++ v).drop i) = false)
    (h2 : firstMatch q v = none) :
    firstMatch q (u ++ v) = none := by
  rw [firstMatch_none_iff] at h2 ⊢
  intro i
  by_cases hi : i < u.length
  · exact h1 i hi
  · obtain ⟨j, rfl⟩ := Nat.exists_eq_add_of_le (Nat.le_of_not_lt hi)
    rw [List.drop_append]
    exact h2 j

lemma digit_ne_char (ch c : Char) (h : isDigitChar ch = true)
    (hc : isDigitChar c = false) : (ch == c) = false := by
  apply beq_eq_false_iff_ne.mpr
  intro e
  subst e
  rw [h] at hc
  simp at hc

/-- The character classes a decimal digit cannot belong to. -/
lemma digit_facts (ch : Char) (h : isDigitChar ch = true) :
    (ch == '_') = false ∧ (ch == '-') = false ∧ (ch == '.') = false ∧
    (ch == '/') = false ∧ isS ch = false ∧ isL ch = false ∧ isR ch = false := by
  refine ⟨digit_ne_char ch '_' h (by decide), digit_ne_char ch '-' h (by decide),
    digit_ne_char ch '.' h (by decide), digit_ne_char ch '/' h (by decide), ?_, ?_, ?_⟩
  · rw [isS, digit_ne_char ch 'S' h (by decide), digit_ne_char ch 's' h (by decide)]
    rfl
  · rw [isL, digit_ne_char ch 'L' h (by decide), digit_ne_char ch 'l' h (by decide)]
    rfl
  · rw [isR, digit_ne_char ch 'R' h (by decide), digit_ne_char ch 'r' h (by decide)]
    rfl

/-- A match of `_S\d+_L\d+` that starts strictly inside `u` cannot use any
character of a suffix beginning `_<c0>` with `c0` not an `L`: the match
lies wholly inside `u`. -/
lemma pat1Head_append (u : List Char) (c0 : Char) (w : List Char)
    (hu : u ≠ []) (hc : isL c0 = false)
    (h : pat1Head (u ++ '_' :: c0 :: w) = true) : pat1Head u = true := by
  have hdv : dHead ('_' :: c0 :: w) = false := dHead_cons_nondigit _ _ (by decide)
  rcases u with _ | ⟨x, _ | ⟨y, t⟩⟩
  · exact absurd rfl hu
  · rw [List.cons_append, List.nil_append, pat1Head] at h
    have hS : isS '_' = false := by decide
    simp [hS] at h
  · rw [List.cons_append, List.cons_append, pat1Head] at h
    rw [takeDigits_append_fst t _ hdv, takeDigits_append_snd t _ hdv] at h
    rw [pat1Head]
    simp only [Bool.and_eq_true] at h ⊢
    obtain ⟨⟨⟨h1, h2⟩, h3⟩, h4⟩ := h
    refine ⟨⟨⟨h1, h2⟩, h3⟩, ?_⟩
    cases hr : (takeDigits t).2 with
    | nil =>
        rw [hr] at h4
        simp only [List.nil_append] at h4
        rw [pat1Tail] at h4
        simp [hc] at h4
    | cons a r1 =>
        cases r1 with
        | nil =>
            rw [hr] at h4
            simp only [List.cons_append, List.nil_append] at h4
            rw [pat1Tail] at h4
            have hL : isL '_' = false := by decide
            simp [hL] at h4
        | cons b t2 =>
            rw [hr] at h4
            simp only [List.cons_append] at h4
            rw [pat1Tail] at h4
            rw [pat1Tail]
            rw [takeDigits_append_fst t2 _ hdv] at h4
            exact h4

/-- A match of `_R\d` that starts strictly inside `u` cannot use any
character of a suffix beginning `_`. -/
lemma pat4Head_append (u w : List Char) (hu : u ≠ [])
    (h : pat4Head (u ++ '_' :: w) = true) : pat4Head u = true := by
  rw [pat4Head] at h ⊢
  simp only [Bool.and_eq_true] at h ⊢
  obtain ⟨⟨h0, h1⟩, h2⟩ := h
  rcases u with _ | ⟨a, _ | ⟨b, _ | ⟨c, t⟩⟩⟩
  · exact absurd rfl hu
  · rw [isRAt] at h1
    have e : ([a] ++ '_' :: w).get? 1 = some '_' := rfl
    rw [e] at h1
    exact absurd h1 (by decide)
  · rw [isDigAt] at h2
    have e : ([a, b] ++ '_' :: w).get? 2 = some '_' := rfl
    rw [e] at h2
    exact absurd h2 (by decide)
  · exact ⟨⟨h0, h1⟩, h2⟩

/-- A match of `_R\d_\d{3}` that starts strictly inside `u` cannot use any
character of a suffix beginning `_<c1>` with `c1` not a digit. -/
lemma pat2Head_append (u : List Char) (c1 : Char) (w : List Char) (hu : u ≠ [])
    (hc : isDigitChar c1 = false)
    (h : pat2Head (u ++ '_' :: c1 :: w) = true) : pat2Head u = true := by
  rw [pat2Head, pat4Head] at h ⊢
  simp only [Bool.and_eq_true] at h ⊢
  obtain ⟨⟨⟨⟨⟨⟨h0, h1⟩, h2⟩, h3⟩, h4⟩, h5⟩, h6⟩ := h
  rcases u with _ | ⟨a, _ | ⟨b, _ | ⟨c, _ | ⟨d, _ | ⟨e1, _ | ⟨f, _ | ⟨g, t⟩⟩⟩⟩⟩⟩⟩
  · exact absurd rfl hu
  · rw [isRAt] at h1
    have e : ([a] ++ '_' :: c1 :: w).get? 1 = some '_' := rfl
    rw [e] at h1
    exact absurd h1 (by decide)
  · rw [isDigAt] at h2
    have e : ([a, b] ++ '_' :: c1 :: w).get? 2 = some '_' := rfl
    rw [e] at h2
    exact absurd h2 (by decide)
  · rw [isDigAt] at h4
    have e : ([a, b, c] ++ '_' :: c1 :: w).get? 4 = some c1 := rfl
    rw [e] at h4
    have hd4 : isDigitChar c1 = true := h4
    rw [hd4] at hc
    simp at hc
  · rw [isDigAt] at h4
    have e : ([a, b, c, d] ++ '_' :: c1 :: w).get? 4 = some '_' := rfl
    rw [e] at h4
    exact absurd h4 (by decide)
  · rw [isDigAt] at h5
    have e : ([a, b, c, d, e1] ++ '_' :: c1 :: w).get? 5 = some '_' := rfl
    rw [e] at h5
    exact absurd h5 (by decide)
  · rw [isDigAt] at h6
    have e : ([a, b, c, d, e1, f] ++ '_' :: c1 :: w).get? 6 = some '_' := rfl
    rw [e] at h6
    exact absurd h6 (by decide)
  · exact ⟨⟨⟨⟨⟨⟨h0, h1⟩, h2⟩, h3⟩, h4⟩, h5⟩, h6⟩

lemma isCAt_digit_isDigAt (l : List Char) (i : Nat) (c : Char)
    (hc : isDigitChar c = true) (h : isCAt l i c = true) : isDigAt l i = true := by
  rw [isCAt] at h
  have e : l.get? i = some c := beq_iff_eq.mp h
  rw [isDigAt, e]
  exact hc

lemma pat3Head_imp_pat2Head (l : List Char) (h : pat3Head l = true) :
    pat2Head l = true := by
  rw [pat3Head] at h
  rw [pat2Head]
  simp only [Bool.and_eq_true] at h ⊢
  obtain ⟨⟨⟨⟨hp4, h3⟩, h4⟩, h5⟩, h6⟩ := h
  exact ⟨⟨⟨⟨hp4, h3⟩, isCAt_digit_isDigAt l 4 '0' (by decide) h4⟩,
    isCAt_digit_isDigAt l 5 '0' (by decide) h5⟩,
    isCAt_digit_isDigAt l 6 '1' (by decide) h6⟩

lemma pat2Head_imp_pat4Head (l : List Char) (h : pat2Head l = true) :
    pat4Head l = true := by
  rw [pat2Head] at h
  simp only [Bool.and_eq_true] at h
  exact h.1.1.1.1

lemma rstripSep_eq_self (l : List Char) (h : endsInSep l = false) : rstripSep l = l := by
  rw [rstripSep]
  cases hr : l.reverse with
  | nil =>
      have hl : l = [] := by
        have := congrArg List.reverse hr
        simpa using this
      rw [hl]
      rfl
  | cons c t =>
      have hgl : l.getLast? = some c := by
        rw [← List.head?_reverse, hr]
        rfl
      have hc : isSep c = false := by
        rw [endsInSep, hgl] at h
        exact h
      rw [List.dropWhile_cons, if_neg (by simp [hc]), ← hr, List.reverse_reverse]

lemma takeWhile_all (p : Char → Bool) (l : List Char) (h : ∀ c ∈ l, p c = true) :
    l.takeWhile p = l := by
  induction l with
  | nil => rfl
  | cons c t ih =>
      rw [List.takeWhile_cons, if_pos (h c (List.mem_cons_self c t)),
        ih (fun x hx => h x (List.mem_cons_of_mem c hx))]

lemma basenameChars_eq_self (l : List Char) (h : ∀ c ∈ l, (c != '/') = true) :
    basenameChars l = l := by
  rw [basenameChars, takeWhile_all _ _ (fun c hc => h c (List.mem_reverse.mp hc)),
    List.reverse_reverse]

lemma digits_ne_slash (l : List Char) (hl : ∀ c ∈ l, isDigitChar c = true) :
    ∀ c ∈ l, (c != '/') = true := by
  intro c hc
  have h4 := (digit_facts c (hl c hc)).2.2.2.1
  simp [bne, h4]

/-- Claim C1 (amended): for every file name following the Illumina
convention `<id>_S<n>_L<n>_R<n>_<nnn>.<ext>[.gz]` with category fastq or
fasta, `filer` returns exactly `<id>` — provided the identifier itself
contains no (case-insensitive) occurrence of the lane pattern
`_S<digits>_L<digits>`, does not end in `_` or `-`, and, being a base
name, contains no slash.  Without the lane-pattern proviso the leftmost
match of the first strip pattern falls inside the identifier and the name
is truncated there, as the counterexample shows. -/
theorem illumina_suffix_extract (ext : List Char) (hext : ext = fastqT ∨ ext = fastaT)
    (id n1 n2 n3 nnn gz : List Char)
    (hgz : gz = [] ∨ gz = gzT)
    (hn1 : n1 ≠ []) (hn1d : ∀ c ∈ n1, isDigitChar c = true)
    (hn2 : n2 ≠ []) (hn2d : ∀ c ∈ n2, isDigitChar c = true)
    (hn3 : n3 ≠ []) (hn3d : ∀ c ∈ n3, isDigitChar c = true)
    (hnnn : nnn.length = 3) (hnnnd : ∀ c ∈ nnn, isDigitChar c = true)
    (hid1 : firstMatch pat1Head id = none)
    (hid2 : endsInSep id = false)
    (hid3 : ∀ c ∈ id, (c != '/') = true) :
    filerName ext
      (id ++ '_' :: 'S' :: (n1 ++ '_' :: 'L' :: (n2 ++ '_' :: 'R' ::
        (n3 ++ '_' :: (nnn ++ '.' :: (ext ++ gz)))))) = id := by
  set r3 : List Char := n3 ++ '_' :: (nnn ++ '.' :: (ext ++ gz)) with hr3
  set r2 : List Char := '_' :: 'R' :: r3 with hr2
  set z2 : List Char := n2 ++ r2 with hz2
  set z1 : List Char := '_' :: 'L' :: z2 with hz1
  set w1 : List Char := n1 ++ z1 with hw1
  set v : List Char := '_' :: 'S' :: w1 with hv
  have hd2 : dHead r2 = false := by
    rw [hr2]
    exact dHead_cons_nondigit _ _ (by decide)
  have hz1d : dHead z1 = false := by
    rw [hz1]
    exact dHead_cons_nondigit _ _ (by decide)
  have hs_r3 : ∀ c ∈ r3, (c != '/') = true := by
    rw [hr3]
    refine List.forall_mem_append.mpr ⟨digits_ne_slash n3 hn3d, ?_⟩
    refine List.forall_mem_cons.mpr ⟨by decide, ?_⟩
    refine List.forall_mem_append.mpr ⟨digits_ne_slash nnn hnnnd, ?_⟩
    refine List.forall_mem_cons.mpr ⟨by decide, ?_⟩
    refine List.forall_mem_append.mpr ⟨?_, ?_⟩
    · rcases hext with rfl | rfl <;> decide
    · rcases hgz with rfl | rfl <;> decide
  have hs_v : ∀ c ∈ v, (c != '/') = true := by
    rw [hv, hw1, hz1, hz2, hr2]
    refine List.forall_mem_cons.mpr ⟨by decide, ?_⟩
    refine List.forall_mem_cons.mpr ⟨by decide, ?_⟩
    refine List.forall_mem_append.mpr ⟨digits_ne_slash n1 hn1d, ?_⟩
    refine List.forall_mem_cons.mpr ⟨by decide, ?_⟩
    refine List.forall_mem_cons.mpr ⟨by decide, ?_⟩
    refine List.forall_mem_append.mpr ⟨digits_ne_slash n2 hn2d, ?_⟩
    refine List.forall_mem_cons.mpr ⟨by decide, ?_⟩
    refine List.forall_mem_cons.mpr ⟨by decide, hs_r3⟩
  have hbn : basenameChars (id ++ v) = id ++ v :=
    basenameChars_eq_self _ (List.forall_mem_append.mpr ⟨hid3, hs_v⟩)
  have e1 : (takeDigits w1).1 = n1.length := by
    rw [hw1, takeDigits_append_fst n1 z1 hz1d, takeDigits_all n1 hn1d]
  have e2 : (takeDigits w1).2 = z1 := by
    rw [hw1, takeDigits_append_snd n1 z1 hz1d, takeDigits_all n1 hn1d]
    simp
  have e3 : (takeDigits z2).1 = n2.length := by
    rw [hz2, takeDigits_append_fst n2 r2 hd2, takeDigits_all n2 hn2d]
  have hm : pat1Head v = true := by
    rw [hv, pat1Head, e1, e2, hz1, pat1Tail, e3]
    simp only [Bool.and_eq_true]
    exact ⟨⟨⟨by decide, by decide⟩, decide_eq_true (List.length_pos.mpr hn1)⟩,
      ⟨by decide, by decide⟩, decide_eq_true (List.length_pos.mpr hn2)⟩
  have hall1 : ∀ i, pat1Head (id.drop i) = false :=
    (firstMatch_none_iff pat1Head id).mp hid1
  have hbefore : ∀ i, i < id.length → pat1Head ((id ++ v).drop i) = false := by
    intro i hi
    rw [List.drop_append_of_le_length (Nat.le_of_lt hi)]
    cases hb : pat1Head (id.drop i ++ v) with
    | false => rfl
    | true =>
        rw [hv] at hb
        have hne : id.drop i ≠ [] := by
          intro e
          have hlen : (id.drop i).length = 0 := by rw [e]; rfl
          rw [List.length_drop] at hlen
          omega
        have hin := pat1Head_append (id.drop i) 'S' w1 hne (by decide) hb
        rw [hall1 i] at hin
        simp at hin
  have hfm : firstMatch pat1Head (id ++ v) = some id.length :=
    firstMatch_append_eq pat1Head id v hbefore hm
  have hsearch : strip_search ext (id ++ v) = some id.length := by
    rw [strip_search, hfm]
  have hstrip : stripName ext (id ++ v) = id := by
    rw [stripName, hsearch]
    exact List.take_left id v
  rw [filerName, hbn, hstrip]
  exact rstripSep_eq_self id hid2

/-- Counterexample for C1 as frozen: `A_S1_L1_S2_L001_R1_001.fastq`
follows the Illumina convention with identifier `A_S1_L1`, yet `filer`
returns `A`, because the leftmost `_S\d+_L\d+` match lies inside the
identifier. -/
theorem illumina_suffix_counterexample :
    exC1 = exC1id ++ '_' :: 'S' :: ((['2'] : List Char) ++ '_' :: 'L' ::
      ((['0', '0', '1'] : List Char) ++ '_' :: 'R' :: ((['1'] : List Char) ++ '_' ::
      ((['0', '0', '1'] : List Char) ++ '.' :: (fastqT ++ ([] : List Char))))))
    ∧ filerName fastqT exC1 ≠ exC1id := by
  refine ⟨by decide, by decide⟩

/-- Witness for the amended C1 at the docstring's own example
`2015-SEQ-001_S1_L001_R1_001.fastq.gz`. -/
theorem illumina_suffix_extract_witness :
    firstMatch pat1Head exId = none
    ∧ filerName fastqT
        (exId ++ '_' :: 'S' :: ((['1'] : List Char) ++ '_' :: 'L' ::
          ((['0', '0', '1'] : List Char) ++ '_' :: 'R' :: ((['1'] : List Char) ++ '_' ::
          ((['0', '0', '1'] : List Char) ++ '.' :: (fastqT ++ gzT)))))) = exId :=
  ⟨by decide,
   illumina_suffix_extract fastqT (Or.inl rfl) exId ['1'] ['0', '0', '1'] ['1']
     ['0', '0', '1'] gzT (Or.inr rfl) (by decide) (by decide) (by decide) (by decide)
     (by decide) (by decide) (by decide) (by decide) (by decide) (by decide) (by decide)⟩



lemma filer_strip_at_id (ext id v : List Char)
    (hsl : ∀ c ∈ id ++ v, (c != '/') = true)
    (hsearch : strip_search ext (id ++ v) = some id.length)
    (hid2 : endsInSep id = false) :
    filerName ext (id ++ v) = id := by
  have hst : stripName ext (id ++ v) = id := by
    rw [stripName, hsearch]
    exact List.take_left id v
  rw [filerName, basenameChars_eq_self _ hsl, hst]
  exact rstripSep_eq_self id hid2

lemma strip_search_pat2 (ext l : List Char) (k : Nat)
    (h1 : firstMatch pat1Head l = none)
    (h2 : firstMatch pat2Head l = some k) :
    strip_search ext l = some k := by
  rw [strip_search, h1, h2]

lemma strip_search_pat4 (ext l : List Char) (k : Nat)
    (h1 : firstMatch pat1Head l = none)
    (h2 : firstMatch pat2Head l = none)
    (h3 : firstMatch pat3Head l = none)
    (h4 : firstMatch pat4Head l = some k) :
    strip_search ext l = some k := by
  rw [strip_search, h1, h2, h3, h4]

/-- Claim C3 (amended): for every file name of the form
`<id>_R<1|2>.<ext>[.gz]` or `<id>_R<1|2>_<nnn>.<ext>[.gz]` with category
fastq or fasta, `filer` returns exactly `<id>` — provided the identifier
itself contains no (case-insensitive) occurrence of the lane pattern
`_S<digits>_L<digits>` nor of the read pattern `_R<digit>`, does not end
in `_` or `-`, and, being a base name, contains no slash.  Without the
read-pattern proviso the leftmost `_R\d` match falls inside the
identifier and the name is truncated there, as the counterexample
shows. -/
theorem read_suffix_extract (ext : List Char) (hext : ext = fastqT ∨ ext = fastaT)
    (id : List Char) (d : Char) (hd : d = '1' ∨ d = '2')
    (a b c : Char) (ha : isDigitChar a = true) (hb : isDigitChar b = true)
    (hc : isDigitChar c = true)
    (gz : List Char) (hgz : gz = [] ∨ gz = gzT)
    (hid1 : firstMatch pat1Head id = none)
    (hid4 : firstMatch pat4Head id = none)
    (hid2 : endsInSep id = false)
    (hid3 : ∀ cc ∈ id, (cc != '/') = true) :
    filerName ext (id ++ '_' :: 'R' :: d :: '.' :: (ext ++ gz)) = id
    ∧ filerName ext (id ++ '_' :: 'R' :: d :: '_' :: a :: b :: c :: '.' :: (ext ++ gz)) = id := by
  have hdd : isDigitChar d = true := by rcases hd with rfl | rfl <;> decide
  obtain ⟨ha1, ha2, ha3, ha4, ha5, ha6, ha7⟩ := digit_facts a ha
  obtain ⟨hb1, hb2, hb3, hb4, hb5, hb6, hb7⟩ := digit_facts b hb
  obtain ⟨hc1, hc2, hc3, hc4, hc5, hc6, hc7⟩ := digit_facts c hc
  obtain ⟨hd1f, hd2f, hd3f, hd4f, hd5f, hd6f, hd7f⟩ := digit_facts d hdd
  have hall1 : ∀ i, pat1Head (id.drop i) = false :=
    (firstMatch_none_iff pat1Head id).mp hid1
  have hall4 : ∀ i, pat4Head (id.drop i) = false :=
    (firstMatch_none_iff pat4Head id).mp hid4
  have hall2 : ∀ i, pat2Head (id.drop i) = false := by
    intro i
    cases hbb : pat2Head (id.drop i) with
    | false => rfl
    | true =>
        have hx := pat2Head_imp_pat4Head _ hbb
        rw [hall4 i] at hx
        simp at hx
  have hdropne : ∀ i, i < id.length → id.drop i ≠ [] := by
    intro i hi e
    have hlen : (id.drop i).length = 0 := by rw [e]; rfl
    rw [List.length_drop] at hlen
    omega
  have hbef1 : ∀ (w : List Char) i, i < id.length →
      pat1Head ((id ++ '_' :: 'R' :: w).drop i) = false := by
    intro w i hi
    rw [List.drop_append_of_le_length (Nat.le_of_lt hi)]
    cases hbb : pat1Head (id.drop i ++ '_' :: 'R' :: w) with
    | false => rfl
    | true =>
        have hx := pat1Head_append (id.drop i) 'R' w (hdropne i hi) (by decide) hbb
        rw [hall1 i] at hx
        simp at hx
  have hbef2 : ∀ (w : List Char) i, i < id.length →
      pat2Head ((id ++ '_' :: 'R' :: w).drop i) = false := by
    intro w i hi
    rw [List.drop_append_of_le_length (Nat.le_of_lt hi)]
    cases hbb : pat2Head (id.drop i ++ '_' :: 'R' :: w) with
    | false => rfl
    | true =>
        have hx := pat2Head_append (id.drop i) 'R' w (hdropne i hi) (by decide) hbb
        rw [hall2 i] at hx
        simp at hx
  have hbef3 : ∀ (w : List Char) i, i < id.length →
      pat3Head ((id ++ '_' :: 'R' :: w).drop i) = false := by
    intro w i hi
    rw [List.drop_append_of_le_length (Nat.le_of_lt hi)]
    cases hbb : pat3Head (id.drop i ++ '_' :: 'R' :: w) with
    | false => rfl
    | true =>
        have hx := pat2Head_append (id.drop i) 'R' w (hdropne i hi) (by decide)
          (pat3Head_imp_pat2Head _ hbb)
        rw [hall2 i] at hx
        simp at hx
  have hbef4 : ∀ (w : List Char) i, i < id.length →
      pat4Head ((id ++ '_' :: w).drop i) = false := by
    intro w i hi
    rw [List.drop_append_of_le_length (Nat.le_of_lt hi)]
    cases hbb : pat4Head (id.drop i ++ '_' :: w) with
    | false => rfl
    | true =>
        have hx := pat4Head_append (id.drop i) w (hdropne i hi) hbb
        rw [hall4 i] at hx
        simp at hx
  rcases hext with rfl | rfl <;> rcases hgz with rfl | rfl <;> rcases hd with rfl | rfl <;>
    · refine ⟨?_, ?_⟩
      · refine filer_strip_at_id _ id _ ?_ ?_ hid2
        · exact List.forall_mem_append.mpr ⟨hid3, by decide⟩
        · refine strip_search_pat4 _ _ id.length ?_ ?_ ?_ ?_
          · exact firstMatch_append_none _ id _ (hbef1 _) (by decide)
          · exact firstMatch_append_none _ id _ (hbef2 _) (by decide)
          · exact firstMatch_append_none _ id _ (hbef3 _) (by decide)
          · exact firstMatch_append_eq _ id _ (hbef4 _) (by decide)
      · refine filer_strip_at_id _ id _ ?_ ?_ hid2
        · refine List.forall_mem_append.mpr ⟨hid3, ?_⟩
          refine List.forall_mem_cons.mpr ⟨by decide, ?_⟩
          refine List.forall_mem_cons.mpr ⟨by decide, ?_⟩
          refine List.forall_mem_cons.mpr ⟨by decide, ?_⟩
          refine List.forall_mem_cons.mpr ⟨by decide, ?_⟩
          refine List.forall_mem_cons.mpr ⟨by simp [bne, ha4], ?_⟩
          refine List.forall_mem_cons.mpr ⟨by simp [bne, hb4], ?_⟩
          refine List.forall_mem_cons.mpr ⟨by simp [bne, hc4], ?_⟩
          refine List.forall_mem_cons.mpr ⟨by decide, by decide⟩
        · refine strip_search_pat2 _ _ id.length ?_ ?_
          · refine firstMatch_append_none _ id _ (hbef1 _) ?_
            simp only [firstMatch_cons_none]
            refine ⟨?_, ?_, ?_, ?_, ?_, ?_, ?_, ?_, ?_⟩
            · simp [pat1Head, show isS 'R' = false from by decide]
            · simp [pat1Head, show ('R' == '_') = false from by decide]
            · simp [pat1Head, hd1f]
            · simp [pat1Head, ha5]
            · simp [pat1Head, ha1]
            · simp [pat1Head, hb1]
            · simp [pat1Head, hc1]
            · decide
            · decide
          · refine firstMatch_append_eq _ id _ (hbef2 _) ?_
            rw [pat2Head, pat4Head]
            simp only [Bool.and_eq_true]
            exact ⟨⟨⟨⟨⟨⟨rfl, rfl⟩, hdd⟩, rfl⟩, ha⟩, hb⟩, hc⟩



/-- Counterexample for C3 as frozen: `x_R3_R1.fastq` is of the form
`<id>_R1.<ext>` with identifier `x_R3`, yet `filer` returns `x`, because
the leftmost `_R\d` match lies inside the identifier. -/
theorem read_suffix_counterexample :
    exC3 = exC3id ++ '_' :: 'R' :: '1' :: '.' :: (fastqT ++ ([] : List Char))
    ∧ filerName fastqT exC3 ≠ exC3id := by
  refine ⟨by decide, by decide⟩

/-- Witness for the amended C3 at `2015-SEQ-001_R1.fastq.gz` and
`2015-SEQ-001_R1_001.fastq.gz`. -/
theorem read_suffix_extract_witness :
    firstMatch pat4Head exId = none
    ∧ filerName fastqT (exId ++ '_' :: 'R' :: '1' :: '.' :: (fastqT ++ gzT)) = exId
    ∧ filerName fastqT
        (exId ++ '_' :: 'R' :: '1' :: '_' :: '0' :: '0' :: '1' :: '.' :: (fastqT ++ gzT))
        = exId :=
  ⟨by decide,
   (read_suffix_extract fastqT (Or.inl rfl) exId '1' (Or.inl rfl) '0' '0' '1'
     (by decide) (by decide) (by decide) gzT (Or.inr rfl) (by decide) (by decide)
     (by decide) (by decide)).1,
   (read_suffix_extract fastqT (Or.inl rfl) exId '1' (Or.inl rfl) '0' '0' '1'
     (by decide) (by decide) (by decide) gzT (Or.inr rfl) (by decide) (by decide)
     (by decide) (by decide)).2⟩

end NasTools
